import Mathlib

/-!
Verification of the mxnet data-loading core (include/mxnet/io.h).

The header declares the roles of the pipeline: a streaming iterator
(IIterator), a random-access Dataset, a DataBatch value, and the
BatchifyFunction collation base class. The concrete code present in the
header (BatchifyFunction.SanityCheck, IIterator.SetDataName, the default
IIterator.GetLenHint) is embedded directly; contracts whose
implementations live outside this header (the prefetcher, concrete
datasets and iterators) are modelled from the specification and marked as
such in their doc comments.
-/

namespace MxnetIO

/-- The opaque tensor boundary type. The core never inspects tensor
contents, only the shape metadata needed for the leading-dimension
invariant, so an NDArray is embedded as its shape descriptor. -/
structure NDArray where
  shape : List Nat
deriving DecidableEq, Repr

/-- Leading dimension of a tensor: head of its shape (0 for a rank-0
shape list). -/
def NDArray.leadingDim (t : NDArray) : Nat :=
  t.shape.headD 0

/-- Collation errors of the batchify contract: the CHECK_GT failure in
SanityCheck (io.h:201) is EmptyBatch, the CHECK_EQ failure (io.h:205)
at the i-th sample is ArityMismatch i. -/
inductive BatchifyError where
  | EmptyBatch : BatchifyError
  | ArityMismatch : Nat → BatchifyError
deriving DecidableEq, Repr

/-- The loop of BatchifyFunction.SanityCheck (io.h:204-207): starting
from sample index i, every remaining sample must have exactly outSize
fields; the first sample that does not triggers CHECK_EQ failure with
its index. -/
def checkArity (outSize : Nat) : Nat → List (List NDArray) → Except BatchifyError Nat
  | _, [] => Except.ok outSize
  | i, s :: rest =>
      if s.length = outSize then checkArity outSize (i + 1) rest
      else Except.error (BatchifyError.ArityMismatch i)

/-- BatchifyFunction.SanityCheck (io.h:199-209): fails if the batch is
empty (CHECK_GT(bs, 0)), then checks every sample from index 1 on has
the same field count as sample 0, and returns that common field count. -/
def SanityCheck (inputs : List (List NDArray)) : Except BatchifyError Nat :=
  match inputs with
  | [] => Except.error BatchifyError.EmptyBatch
  | s₀ :: rest => checkArity s₀.length 1 rest

/-- Modelled from the spec: a concrete BatchifyFunction.Batchify runs the
mandatory validation (SanityCheck) before any stacking logic; the
stacking policy itself is the concrete batchifier parameter. The header
only declares Batchify as pure virtual (io.h:197). -/
def Batchify (stack : List (List NDArray) → List NDArray)
    (inputs : List (List NDArray)) : Except BatchifyError (List NDArray) :=
  match SanityCheck inputs with
  | Except.error e => Except.error e
  | Except.ok _ => Except.ok (stack inputs)

/-- IIterator.SetDataName (io.h:61-63): data_names.push_back(data_name). -/
def SetDataName (data_names : List String) (data_name : String) : List String :=
  data_names ++ [data_name]

/-- Default IIterator.GetLenHint (io.h:68-70): return -1. The C++ return
type is int64_t; -1 is far inside its range, so Int is a faithful
embedding here. -/
def GetLenHint_default : Int := -1

/-- The length-hint convention (io.h:64-67): a negative value means the
remaining length of the iterator is unknown. -/
def lenHintIsUnknown (h : Int) : Bool :=
  decide (h < 0)

/-- One logical training example: stable index plus an ordered field
list (mirrors struct DataInst, io.h:74-81, with TBlob at the tensor
boundary). -/
structure Sample where
  index : Nat
  fields : List NDArray
deriving DecidableEq, Repr

/-- struct DataBatch (io.h:86-95): batched field tensors, per-sample
indices (uint64 in the source, embedded as Nat), the opaque extra
payload, and the signed pad counter num_batch_padd (int in the source). -/
structure DataBatch where
  data : List NDArray
  index : List Nat
  extra_data : String
  num_batch_padd : Int
deriving DecidableEq, Repr

/-- Field count of a batch of samples: the field count of the first
sample (0 for no samples). -/
def arityOf (samples : List Sample) : Nat :=
  match samples with
  | [] => 0
  | s :: _ => s.fields.length

/-- Per-sample shape of field f, read off the first sample. -/
def fieldShape (samples : List Sample) (f : Nat) : List Nat :=
  match samples with
  | [] => []
  | s :: _ => (s.fields.getD f { shape := [] }).shape

/-- Modelled from the spec: dense stacking along a new leading dimension
equal to the batch size — field f of the batch has shape
(number of samples) :: (per-sample shape of field f). -/
def stackFields (samples : List Sample) : List NDArray :=
  (List.range (arityOf samples)).map fun f =>
    { shape := samples.length :: fieldShape samples f }

/-- Modelled from the spec: construction of the DataBatch handed to a
consumer (the producer side is outside the header, which only declares
struct DataBatch). The contributing samples are the real ones followed
by the synthetic entries appended to fill a fixed batch size;
num_batch_padd counts the synthetic entries. -/
def makeBatch (real padded : List Sample) (extra : String) : DataBatch :=
  let all := real ++ padded
  { data := stackFields all
    index := all.map Sample.index
    extra_data := extra
    num_batch_padd := (padded.length : Int) }

/-- Modelled from the spec: the StreamingIterator state machine behind
IIterator (io.h:43-71) — a cursor over the data of one epoch plus the
Exhausted flag; Next is pure virtual in the header, so its contract
(advance and report whether a new value is available; sticky false after
exhaustion; BeforeFirst rewinds) is taken from the specification. -/
structure StreamIter (α : Type) where
  items : List α
  cursor : Nat
  exhausted : Bool
deriving DecidableEq, Repr

/-- Modelled from the spec: Next advances the cursor and returns true
while data remains; at the end it transitions to Exhausted and returns
false, and once Exhausted it keeps returning false without moving. -/
def StreamIter.next (it : StreamIter α) : Bool × StreamIter α :=
  if it.exhausted then (false, it)
  else if it.cursor < it.items.length then
    (true, { it with cursor := it.cursor + 1 })
  else (false, { it with exhausted := true })

/-- Modelled from the spec: BeforeFirst repositions the cursor to the
beginning and clears Exhausted. -/
def StreamIter.beforeFirst (it : StreamIter α) : StreamIter α :=
  { it with cursor := 0, exhausted := false }

/-- Modelled from the spec: Value returns the item produced by the most
recent true-returning Next. -/
def StreamIter.value (it : StreamIter α) : Option α :=
  it.items.get? (it.cursor - 1)

/-- Iterate the state part of Next n times. -/
def StreamIter.nextN (it : StreamIter α) : Nat → StreamIter α
  | 0 => it
  | n + 1 => StreamIter.nextN (it.next).2 n

/-- Errors of the Dataset random-access contract (io.h:130-161). -/
inductive DatasetError where
  | IndexOutOfRange : DatasetError
  | FieldOutOfRange : DatasetError
deriving DecidableEq, Repr

/-- Modelled from the spec: an initialized random-access Dataset —
GetLen, GetOutputSize and the underlying item table (GetItem is pure
virtual in the header, io.h:152; its bounds-checking contract is taken
from the specification). The field argument is signed (int n in the
source). -/
structure Dataset where
  len : Nat
  field_count : Nat
  item : Nat → Nat → NDArray
  is_scalar : Nat → Nat → Bool

/-- Modelled from the spec: Dataset.get checks the sample index against
len and the field index against field_count, failing with
IndexOutOfRange resp. FieldOutOfRange, and otherwise returns the stored
tensor together with the out-of-band scalar flag. -/
def Dataset.get (d : Dataset) (idx : Nat) (f : Int) :
    Except DatasetError (NDArray × Bool) :=
  if d.len ≤ idx then Except.error DatasetError.IndexOutOfRange
  else if f < 0 ∨ (d.field_count : Int) ≤ f then
    Except.error DatasetError.FieldOutOfRange
  else Except.ok (d.item idx f.toNat, d.is_scalar idx f.toNat)

/-- Modelled from the spec: state of a PrefetchingIterator wrapping an
inner streaming iterator. pending is what the inner iterator has yet to
produce this epoch; innerErr is the error the inner Next raises after
pending is exhausted (none for a clean end of epoch); queue is the
bounded lookahead queue; innerDone records that the background loop has
pushed its end sentinel and stopped; captured is a background error not
yet surfaced; exhausted is the terminal consumer-side state. -/
structure PrefetchState (α ε : Type) where
  pending : List α
  innerErr : Option ε
  queue : List α
  innerDone : Bool
  captured : Option ε
  exhausted : Bool
deriving DecidableEq, Repr

/-- Initial prefetcher state at the start of an epoch. -/
def PrefetchState.init (inner : List α) (err : Option ε) : PrefetchState α ε :=
  { pending := inner, innerErr := err, queue := [], innerDone := false
    captured := none, exhausted := false }

/-- Modelled from the spec: one step of the background production loop —
if the loop is still running and the bounded queue has room, call the
inner Next: a produced batch is pushed at the back of the queue; at the
end of the inner data the loop stops, capturing the inner error when
Next raised one. Backpressure: the step is a no-op when the queue is
full. -/
def prodStep (depth : Nat) (s : PrefetchState α ε) : PrefetchState α ε :=
  if s.innerDone then s
  else if s.queue.length < depth then
    match s.pending with
    | b :: rest => { s with pending := rest, queue := s.queue ++ [b] }
    | [] => { s with innerDone := true, captured := s.innerErr }
  else s

/-- Run n background production steps. -/
def prodSteps (depth : Nat) : Nat → PrefetchState α ε → PrefetchState α ε
  | 0, s => s
  | n + 1, s => prodSteps depth n (prodStep depth s)

/-- What one consumer-side Next/Value round observes: a batch, the end
of the epoch, or a re-raised background error. -/
inductive PullResult (α ε : Type) where
  | batch : α → PullResult α ε
  | endOfData : PullResult α ε
  | raised : ε → PullResult α ε
deriving DecidableEq, Repr

/-- Modelled from the spec: one consumer-side pull. A terminally
exhausted wrapper reports the end of data; a captured background error
is re-raised exactly once and the wrapper becomes terminally exhausted;
otherwise the front of the queue is delivered; on an empty queue the
consumer blocks, which for a positive lookahead depth amounts to one
producer step before re-inspecting the state. -/
def consPull (depth : Nat) (s : PrefetchState α ε) :
    PullResult α ε × PrefetchState α ε :=
  if s.exhausted then (PullResult.endOfData, s)
  else
    match s.captured with
    | some e => (PullResult.raised e, { s with captured := none, exhausted := true })
    | none =>
      match s.queue with
      | b :: q => (PullResult.batch b, { s with queue := q })
      | [] =>
        let s₁ := prodStep depth s
        match s₁.captured with
        | some e => (PullResult.raised e, { s₁ with captured := none, exhausted := true })
        | none =>
          match s₁.queue with
          | b :: q => (PullResult.batch b, { s₁ with queue := q })
          | [] => (PullResult.endOfData, { s₁ with exhausted := true })

/-- Run n consumer pulls, letting the background loop run an arbitrary
number of steps (the schedule) before each pull, and record what the
consumer observes. -/
def pullTrace (depth : Nat) : Nat → List Nat → PrefetchState α ε → List (PullResult α ε)
  | 0, _, _ => []
  | n + 1, sched, s =>
    let s₁ := prodSteps depth (sched.headD 0) s
    let r := consPull depth s₁
    r.1 :: pullTrace depth n sched.tail r.2

/-- The batches the consumer has not yet observed: the lookahead queue
followed by what the inner iterator has yet to produce. -/
def remainingOf (s : PrefetchState α ε) : List α :=
  s.queue ++ s.pending

/-- A clean in-flight run: no inner error, no captured error, the
wrapper not exhausted, and the background loop only stops after the
inner data is drained. -/
def CleanRun (s : PrefetchState α ε) : Prop :=
  s.innerErr = none ∧ s.captured = none ∧ s.exhausted = false ∧
  (s.innerDone = true → s.pending = [])

/-- Terminal wrapper state: consumer-side exhausted and the background
loop stopped. -/
def Terminal (s : PrefetchState α ε) : Prop :=
  s.exhausted = true ∧ s.innerDone = true

/-- An error-bound run before the background loop hits the error: the
inner iterator will raise e at the end of its data, nothing captured
yet. -/
def ErrBound (e : ε) (s : PrefetchState α ε) : Prop :=
  s.innerErr = some e ∧ s.captured = none ∧ s.exhausted = false ∧
  s.innerDone = false

/-- The background loop has captured the inner error e and stopped; the
consumer has not been told yet. -/
def ErrCaptured (e : ε) (s : PrefetchState α ε) : Prop :=
  s.captured = some e ∧ s.innerDone = true ∧ s.exhausted = false ∧
  s.pending = []

/-- If some sample in the tail has a field count other than outSize, the
arity loop fails with an ArityMismatch, whatever the running index. -/
lemma checkArity_mem_error (outSize : Nat) :
    ∀ (rest : List (List NDArray)) (i : Nat),
      (∃ s ∈ rest, s.length ≠ outSize) →
      ∃ j, checkArity outSize i rest = Except.error (BatchifyError.ArityMismatch j) := by
  intro rest
  induction rest with
  | nil => intro i h; simp at h
  | cons s rest ih =>
    intro i h
    by_cases hs : s.length = outSize
    · have hrest : ∃ t ∈ rest, t.length ≠ outSize := by
        obtain ⟨t, ht, hne⟩ := h
        rcases List.mem_cons.mp ht with h1 | h2
        · exact absurd (h1 ▸ hne) (by simp [hs])
        · exact ⟨t, h2, hne⟩
      obtain ⟨j, hj⟩ := ih (i + 1) hrest
      exact ⟨j, by simpa [checkArity, hs] using hj⟩
    · exact ⟨i, by simp [checkArity, hs]⟩

/-- The arity loop reads only the lengths of the samples: transforming
every tensor in place leaves its verdict unchanged. -/
lemma checkArity_map (outSize : Nat) (f : NDArray → NDArray) :
    ∀ (rest : List (List NDArray)) (i : Nat),
      checkArity outSize i (rest.map (List.map f)) = checkArity outSize i rest := by
  intro rest
  induction rest with
  | nil => intro i; rfl
  | cons s rest ih =>
    intro i
    by_cases hs : s.length = outSize
    · simp [checkArity, hs, ih (i + 1)]
    · simp [checkArity, hs]

/-- C1: on a nonempty input in which some sample has a field count
different from that of the first sample, the validation fails with an
ArityMismatch, and every concrete batchifier fails with that same error
before its stacking logic runs; moreover the check compares field counts
only — transforming every tensor (hence any per-field shape) leaves the
verdict unchanged. -/
theorem c1_arity_mismatch (s₀ : List NDArray) (rest : List (List NDArray))
    (f : NDArray → NDArray) (h : ∃ s ∈ rest, s.length ≠ s₀.length) :
    (∃ j, SanityCheck (s₀ :: rest) = Except.error (BatchifyError.ArityMismatch j) ∧
      ∀ stack, Batchify stack (s₀ :: rest) =
        Except.error (BatchifyError.ArityMismatch j)) ∧
    SanityCheck ((s₀ :: rest).map (List.map f)) = SanityCheck (s₀ :: rest) := by
  constructor
  · obtain ⟨j, hj⟩ := checkArity_mem_error s₀.length rest 1 h
    refine ⟨j, by simpa [SanityCheck] using hj, fun stack => ?_⟩
    have hS : SanityCheck (s₀ :: rest) = Except.error (BatchifyError.ArityMismatch j) := by
      simpa [SanityCheck] using hj
    simp [Batchify, hS]
  · simp [SanityCheck, checkArity_map]

/-- Witness for C1 at a concrete two-sample input with mismatching field
counts. -/
theorem c1_arity_mismatch_witness :
    (∃ j, SanityCheck (([NDArray.mk [2], NDArray.mk [3]] : List NDArray) ::
          [[NDArray.mk [2]]]) =
        Except.error (BatchifyError.ArityMismatch j) ∧
      ∀ stack, Batchify stack (([NDArray.mk [2], NDArray.mk [3]] : List NDArray) ::
          [[NDArray.mk [2]]]) =
        Except.error (BatchifyError.ArityMismatch j)) ∧
    SanityCheck ((([NDArray.mk [2], NDArray.mk [3]] : List NDArray) ::
          [[NDArray.mk [2]]]).map
        (List.map (fun t => NDArray.mk (7 :: t.shape)))) =
      SanityCheck (([NDArray.mk [2], NDArray.mk [3]] : List NDArray) ::
        [[NDArray.mk [2]]]) :=
  c1_arity_mismatch [NDArray.mk [2], NDArray.mk [3]] [[NDArray.mk [2]]]
    (fun t => NDArray.mk (7 :: t.shape))
    ⟨[NDArray.mk [2]], by simp, by simp⟩

/-- C2: batchify on the empty sample sequence fails with EmptyBatch and
produces no output (every stacking policy included); whenever the
validation succeeds the input had at least one sample, so batchify is
only defined on sequences of length at least 1. -/
theorem c2_empty_batch (inputs : List (List NDArray)) (n : Nat)
    (h : SanityCheck inputs = Except.ok n) :
    1 ≤ inputs.length ∧
    SanityCheck ([] : List (List NDArray)) = Except.error BatchifyError.EmptyBatch ∧
    ∀ stack, Batchify stack ([] : List (List NDArray)) =
      Except.error BatchifyError.EmptyBatch := by
  refine ⟨?_, rfl, fun stack => rfl⟩
  cases inputs with
  | nil => simp [SanityCheck] at h
  | cons s rest => simp

/-- Witness for C2 at a concrete one-sample input. -/
theorem c2_empty_batch_witness :
    1 ≤ ([[{ shape := [2] }]] : List (List NDArray)).length ∧
    SanityCheck ([] : List (List NDArray)) = Except.error BatchifyError.EmptyBatch ∧
    ∀ stack, Batchify stack ([] : List (List NDArray)) =
      Except.error BatchifyError.EmptyBatch :=
  c2_empty_batch [[{ shape := [2] }]] 1 rfl

/-- C3: every DataBatch handed to a consumer satisfies the batch
invariant — the length of its index sequence equals the leading
dimension of every field tensor, num_batch_padd is nonnegative, and
num_batch_padd is at most the length of the index sequence. -/
theorem c3_batch_invariant (real padded : List Sample) (extra : String) :
    (∀ t ∈ (makeBatch real padded extra).data,
      t.leadingDim = (makeBatch real padded extra).index.length) ∧
    0 ≤ (makeBatch real padded extra).num_batch_padd ∧
    (makeBatch real padded extra).num_batch_padd ≤
      ((makeBatch real padded extra).index.length : Int) := by
  refine ⟨?_, ?_, ?_⟩
  · intro t ht
    simp only [makeBatch, stackFields, List.mem_map, List.mem_range] at ht
    obtain ⟨f, _, rfl⟩ := ht
    simp [NDArray.leadingDim, makeBatch]
  · simp [makeBatch]
  · simp only [makeBatch, List.length_map, List.length_append]
    exact_mod_cast Nat.le_add_left padded.length real.length

/-- Within one call, Next does not change the stored epoch data. -/
lemma StreamIter.next_items (it : StreamIter α) : (it.next).2.items = it.items := by
  unfold StreamIter.next
  by_cases h : it.exhausted <;> by_cases h2 : it.cursor < it.items.length <;> simp [h, h2]

/-- A false-returning Next leaves the iterator Exhausted. -/
lemma StreamIter.next_false_exhausted (it : StreamIter α)
    (h : (it.next).1 = false) : (it.next).2.exhausted = true := by
  unfold StreamIter.next at h ⊢
  by_cases he : it.exhausted
  · simp [he]
  · by_cases hc : it.cursor < it.items.length
    · simp [he, hc] at h
    · simp [he, hc]

/-- Next on an Exhausted iterator returns false and does not move. -/
lemma StreamIter.next_of_exhausted (it : StreamIter α)
    (h : it.exhausted = true) : it.next = (false, it) := by
  simp [StreamIter.next, h]

/-- Iterating Next on an Exhausted iterator stays put. -/
lemma StreamIter.nextN_of_exhausted (it : StreamIter α)
    (h : it.exhausted = true) : ∀ n, it.nextN n = it := by
  intro n
  induction n with
  | zero => rfl
  | succ n ih =>
      rw [StreamIter.nextN, it.next_of_exhausted h]
      exact ih

/-- C4: once Next has returned false, every subsequent Next keeps
returning false (no auto-rewind), BeforeFirst clears the Exhausted
state, and after BeforeFirst a nonempty iterator yields again. -/
theorem c4_sticky_exhaustion (it : StreamIter α) (h : (it.next).1 = false) :
    (∀ n, (((it.next).2.nextN n).next).1 = false) ∧
    (it.next).2.beforeFirst.exhausted = false ∧
    ((it.next).2.items ≠ [] → (((it.next).2.beforeFirst).next).1 = true) := by
  have hex : (it.next).2.exhausted = true := it.next_false_exhausted h
  refine ⟨?_, rfl, ?_⟩
  · intro n
    rw [StreamIter.nextN_of_exhausted _ hex n, StreamIter.next_of_exhausted _ hex]
  · intro hne
    generalize (it.next).2 = j at hne
    have hlen : 0 < j.items.length := List.length_pos.mpr hne
    simp [StreamIter.beforeFirst, StreamIter.next, hlen]

/-- Witness for C4 at a concrete exhausted iterator. -/
theorem c4_sticky_exhaustion_witness :
    ((((StreamIter.mk [5] 1 false).next).2.nextN 3).next).1 = false ∧
    (((StreamIter.mk [5] 1 false).next).2.beforeFirst.next).1 = true :=
  ⟨(c4_sticky_exhaustion (StreamIter.mk [5] 1 false) rfl).1 3,
   (c4_sticky_exhaustion (StreamIter.mk [5] 1 false) rfl).2.2 (by decide)⟩

/-- C7: on an initialized Dataset, get succeeds and returns the stored
tensor for every in-range index and field (the error branch is
unreachable there); get at index len fails with IndexOutOfRange; and
every field outside [0, field_count) fails with FieldOutOfRange. -/
theorem c7_dataset_get (d : Dataset) (i : Nat) (f : Int)
    (hi : i < d.len) (hf0 : 0 ≤ f) (hf1 : f < (d.field_count : Int)) :
    d.get i f = Except.ok (d.item i f.toNat, d.is_scalar i f.toNat) ∧
    d.get d.len 0 = Except.error DatasetError.IndexOutOfRange ∧
    ∀ g : Int, (g < 0 ∨ (d.field_count : Int) ≤ g) →
      d.get i g = Except.error DatasetError.FieldOutOfRange := by
  refine ⟨?_, ?_, ?_⟩
  · simp [Dataset.get, not_le.mpr hi, not_lt.mpr hf0, not_le.mpr hf1]
  · simp [Dataset.get]
  · intro g hg
    simp [Dataset.get, not_le.mpr hi, hg]

/-- Witness for C7 at a concrete one-sample, one-field dataset. -/
theorem c7_dataset_get_witness :
    (Dataset.mk 1 1 (fun _ _ => NDArray.mk []) (fun _ _ => false)).get 0 0 =
      Except.ok (NDArray.mk [], false) ∧
    (Dataset.mk 1 1 (fun _ _ => NDArray.mk []) (fun _ _ => false)).get 1 0 =
      Except.error DatasetError.IndexOutOfRange ∧
    (Dataset.mk 1 1 (fun _ _ => NDArray.mk []) (fun _ _ => false)).get 0 (-1) =
      Except.error DatasetError.FieldOutOfRange := by
  have h := c7_dataset_get (Dataset.mk 1 1 (fun _ _ => NDArray.mk []) (fun _ _ => false))
    0 0 (by decide) (by decide) (by decide)
  exact ⟨h.1, h.2.1, h.2.2 (-1) (Or.inl (by decide))⟩

/-- C8: the default GetLenHint returns -1, and -1 falls in the negative
range that the length-hint convention reads as an unknown remaining
length. -/
theorem c8_len_hint_default :
    GetLenHint_default = -1 ∧ lenHintIsUnknown GetLenHint_default = true := by
  constructor
  · rfl
  · rfl

/-- C9: SetDataName appends the given name as the new last element of
data_names, grows the list by exactly one, and leaves every previously
stored name and its position unchanged. -/
theorem c9_set_data_name (data_names : List String) (s : String) :
    (SetDataName data_names s).length = data_names.length + 1 ∧
    (SetDataName data_names s).getLast? = some s ∧
    (SetDataName data_names s).take data_names.length = data_names := by
  refine ⟨by simp [SetDataName], ?_, ?_⟩
  · simp [SetDataName]
  · simp [SetDataName, List.take_left]

/-- C10: on exactly one sample, SanityCheck always succeeds and returns
the field count of that sample — also for a zero-field sample, so no minimum
per-sample field count is enforced. -/
theorem c10_single_sample (s : List NDArray) :
    SanityCheck [s] = Except.ok s.length ∧
    SanityCheck [([] : List NDArray)] = Except.ok 0 :=
  ⟨rfl, rfl⟩

/-- A background step of a clean run keeps the run clean and does not
change what the consumer has yet to observe. -/
lemma prodStep_cleanRun (depth : Nat) (s : PrefetchState α ε) (h : CleanRun s) :
    CleanRun (prodStep depth s) ∧ remainingOf (prodStep depth s) = remainingOf s := by
  obtain ⟨h1, h2, h3, h4⟩ := h
  by_cases hd : s.innerDone = true
  · simp [prodStep, hd, CleanRun, h1, h2, h3, h4]
  · by_cases hq : s.queue.length < depth
    · cases hp : s.pending with
      | nil => simp [prodStep, hd, hq, hp, CleanRun, remainingOf, h1, h2, h3]
      | cons b rest =>
          simp [prodStep, hd, hq, hp, CleanRun, remainingOf, h1, h2, h3, hd]
    · simp [prodStep, hd, hq, CleanRun, h1, h2, h3, h4]

/-- Any number of background steps of a clean run keeps the run clean
with the same unobserved batches. -/
lemma prodSteps_cleanRun (depth : Nat) (n : Nat) (s : PrefetchState α ε) (h : CleanRun s) :
    CleanRun (prodSteps depth n s) ∧ remainingOf (prodSteps depth n s) = remainingOf s := by
  induction n generalizing s with
  | zero => exact ⟨h, rfl⟩
  | succ n ih =>
      obtain ⟨hc, hr⟩ := prodStep_cleanRun depth s h
      obtain ⟨hc2, hr2⟩ := ih (prodStep depth s) hc
      exact ⟨hc2, by rw [prodSteps, hr2, hr]⟩

/-- The background loop never restarts once stopped. -/
lemma prodStep_terminal (depth : Nat) (s : PrefetchState α ε) (h : Terminal s) :
    prodStep depth s = s := by
  simp [prodStep, h.2]

/-- Iterated version of prodStep_terminal. -/
lemma prodSteps_terminal (depth : Nat) (n : Nat) (s : PrefetchState α ε) (h : Terminal s) :
    prodSteps depth n s = s := by
  induction n with
  | zero => rfl
  | succ n ih => rw [prodSteps, prodStep_terminal depth s h]; exact ih

/-- A pull on a terminal wrapper reports the end of data and stays put. -/
lemma consPull_terminal (depth : Nat) (s : PrefetchState α ε) (h : Terminal s) :
    consPull depth s = (PullResult.endOfData, s) := by
  simp [consPull, h.1]

/-- Every pull after the terminal state reports the end of data,
whatever the schedule. -/
lemma pullTrace_terminal (depth : Nat) (n : Nat) (sched : List Nat)
    (s : PrefetchState α ε) (h : Terminal s) :
    pullTrace depth n sched s = List.replicate n PullResult.endOfData := by
  induction n generalizing sched with
  | zero => rfl
  | succ n ih =>
      rw [pullTrace]
      rw [prodSteps_terminal depth _ s h, consPull_terminal depth s h]
      simp [ih, List.replicate_succ]

/-- A pull on a clean run with unobserved batches delivers the first of
them (positive lookahead depth); with nothing left it reports the end of
data and the wrapper becomes terminal. -/
lemma consPull_cleanRun (depth : Nat) (hdep : 0 < depth)
    (s : PrefetchState α ε) (h : CleanRun s) :
    (∀ b rest, remainingOf s = b :: rest →
      ∃ s₂, consPull depth s = (PullResult.batch b, s₂) ∧ CleanRun s₂ ∧
        remainingOf s₂ = rest) ∧
    (remainingOf s = [] →
      ∃ s₂, consPull depth s = (PullResult.endOfData, s₂) ∧ Terminal s₂) := by
  obtain ⟨h1, h2, h3, h4⟩ := h
  cases hq : s.queue with
  | cons b q =>
      constructor
      · intro b2 rest hrem
        rw [remainingOf, hq] at hrem
        obtain ⟨rfl, hrest⟩ := List.cons.injEq .. ▸ hrem
        refine ⟨{ s with queue := q }, ?_, ?_, ?_⟩
        · simp [consPull, h2, h3, hq]
        · exact ⟨h1, h2, h3, h4⟩
        · simpa [remainingOf] using hrest.symm ▸ rfl
      · intro hrem
        rw [remainingOf, hq] at hrem
        simp at hrem
  | nil =>
      have hrem0 : remainingOf s = s.pending := by simp [remainingOf, hq]
      cases hp : s.pending with
      | cons b rest =>
          have hd : s.innerDone = false := by
            cases hdone : s.innerDone
            · rfl
            · rw [h4 hdone] at hp; cases hp
          constructor
          · intro b2 rest2 hrem
            rw [hrem0, hp] at hrem
            obtain ⟨rfl, hrest⟩ := List.cons.injEq .. ▸ hrem
            have hlen : s.queue.length < depth := by simp [hq, hdep]
            refine ⟨{ s with pending := rest, queue := [] }, ?_, ?_, ?_⟩
            · simp [consPull, h2, h3, hq, prodStep, hd, hlen, hdep, hp]
            · exact ⟨h1, h2, h3, by simp [hd]⟩
            · simp [remainingOf, ← hrest]
          · intro hrem
            rw [hrem0, hp] at hrem
            cases hrem
      | nil =>
          refine ⟨?_, ?_⟩
          · intro b rest hrem
            rw [hrem0, hp] at hrem
            cases hrem
          · intro _
            cases hdone : s.innerDone with
            | true =>
                refine ⟨{ s with exhausted := true }, ?_, ?_⟩
                · simp [consPull, h2, h3, hq, prodStep, hdone]
                · exact ⟨rfl, hdone⟩
            | false =>
                have hlen : s.queue.length < depth := by simp [hq, hdep]
                refine ⟨{ s with innerDone := true, captured := none, exhausted := true }, ?_, ?_⟩
                · simp [consPull, h2, h3, hq, prodStep, hdone, hlen, hdep, hp, h1]
                · exact ⟨rfl, rfl⟩

/-- A clean run with nothing left to observe reports only end of data,
whatever the schedule. -/
lemma pullTrace_cleanRun_empty (depth : Nat) (hdep : 0 < depth) (m : Nat)
    (sched : List Nat) (s : PrefetchState α ε) (h : CleanRun s)
    (hrem : remainingOf s = []) :
    pullTrace depth m sched s = List.replicate m PullResult.endOfData := by
  cases m with
  | zero => rfl
  | succ m =>
      obtain ⟨hc, hr⟩ := prodSteps_cleanRun depth (sched.headD 0) s h
      obtain ⟨s₂, hpull, hterm⟩ :=
        (consPull_cleanRun depth hdep _ hc).2 (by rw [hr, hrem])
      simp only [pullTrace]
      rw [hpull]
      simp [pullTrace_terminal depth m sched.tail s₂ hterm, List.replicate_succ]

/-- On a clean run, the consumer observes exactly the unobserved batches
in order, then end of data, whatever the schedule of background steps. -/
lemma pullTrace_cleanRun (depth : Nat) (hdep : 0 < depth) :
    ∀ (l : List α) (s : PrefetchState α ε) (m : Nat) (sched : List Nat),
      CleanRun s → remainingOf s = l →
      pullTrace depth (l.length + m) sched s =
        l.map PullResult.batch ++ List.replicate m PullResult.endOfData := by
  intro l
  induction l with
  | nil =>
      intro s m sched hc hr
      simpa using pullTrace_cleanRun_empty depth hdep m sched s hc hr
  | cons b rest ih =>
      intro s m sched hc hr
      have hlen : (b :: rest).length + m = (rest.length + m) + 1 := by
        simp [List.length_cons]
        omega
      rw [hlen]
      obtain ⟨hc1, hr1⟩ := prodSteps_cleanRun depth (sched.headD 0) s hc
      obtain ⟨s₂, hpull, hc2, hr2⟩ :=
        (consPull_cleanRun depth hdep _ hc1).1 b rest (by rw [hr1, hr])
      simp only [pullTrace]
      rw [hpull]
      simp [ih s₂ m sched.tail hc2 hr2]

/-- C5: a PrefetchingIterator over an inner iterator that produces the
batch list inner delivers exactly those batches, in order, then end of
data — for every positive lookahead depth and every interleaving of
background production steps (no batch reordered, skipped or
duplicated). -/
theorem c5_prefetch_preserves_order {α ε : Type} (depth : Nat) (hdep : 0 < depth)
    (inner : List α) (m : Nat) (sched : List Nat) :
    pullTrace depth (inner.length + m) sched
        (PrefetchState.init inner (none : Option ε)) =
      inner.map PullResult.batch ++ List.replicate m PullResult.endOfData := by
  apply pullTrace_cleanRun depth hdep inner _ m sched
  · exact ⟨rfl, rfl, rfl, by simp [PrefetchState.init]⟩
  · simp [remainingOf, PrefetchState.init]

/-- Witness for C5: depth 1, three inner batches, a nontrivial schedule. -/
theorem c5_prefetch_preserves_order_witness :
    pullTrace 1 (([10, 20, 30] : List Nat).length + 2) [3, 0, 7]
        (PrefetchState.init [10, 20, 30] (none : Option Nat)) =
      [PullResult.batch 10, PullResult.batch 20, PullResult.batch 30,
        PullResult.endOfData, PullResult.endOfData] := by
  have h := @c5_prefetch_preserves_order Nat Nat 1 (by decide) [10, 20, 30] 2 [3, 0, 7]
  simpa using h

/-- Single-step unfolding of pullTrace. -/
lemma pullTrace_succ (depth n : Nat) (sched : List Nat) (s : PrefetchState α ε) :
    pullTrace depth (n + 1) sched s =
      (consPull depth (prodSteps depth (sched.headD 0) s)).1 ::
        pullTrace depth n sched.tail
          (consPull depth (prodSteps depth (sched.headD 0) s)).2 := rfl

/-- A background step before the inner error is hit either keeps the
error ahead (same unobserved batches) or captures it and stops the
loop. -/
lemma prodStep_errBound (depth : Nat) (s : PrefetchState α ε) (e : ε)
    (h : ErrBound e s) :
    (ErrBound e (prodStep depth s) ∧ remainingOf (prodStep depth s) = remainingOf s) ∨
    ErrCaptured e (prodStep depth s) := by
  obtain ⟨h1, h2, h3, h4⟩ := h
  by_cases hq : s.queue.length < depth
  · cases hp : s.pending with
    | nil =>
        right
        simp [prodStep, h4, hq, hp, ErrCaptured, h1, h3]
    | cons b rest =>
        left
        simp [prodStep, h4, hq, hp, ErrBound, remainingOf, h1, h2, h3]
  · left
    simp [prodStep, h4, hq, ErrBound, remainingOf, h1, h2, h3]

/-- Once the error is captured the background loop is stopped for good. -/
lemma prodStep_errCaptured (depth : Nat) (s : PrefetchState α ε) (e : ε)
    (h : ErrCaptured e s) : prodStep depth s = s := by
  simp [prodStep, h.2.1]

/-- Iterated version of prodStep_errCaptured. -/
lemma prodSteps_errCaptured (depth n : Nat) (s : PrefetchState α ε) (e : ε)
    (h : ErrCaptured e s) : prodSteps depth n s = s := by
  induction n with
  | zero => rfl
  | succ n ih => rw [prodSteps, prodStep_errCaptured depth s e h]; exact ih

/-- Any number of background steps before the inner error is hit either
keeps the error ahead or captures it. -/
lemma prodSteps_errBound (depth n : Nat) (s : PrefetchState α ε) (e : ε)
    (h : ErrBound e s) :
    (ErrBound e (prodSteps depth n s) ∧
      remainingOf (prodSteps depth n s) = remainingOf s) ∨
    ErrCaptured e (prodSteps depth n s) := by
  induction n generalizing s with
  | zero => exact Or.inl ⟨h, rfl⟩
  | succ n ih =>
      rcases prodStep_errBound depth s e h with ⟨hb, hrem⟩ | hcap
      · rcases ih (prodStep depth s) hb with ⟨hb2, hrem2⟩ | hcap2
        · exact Or.inl ⟨by simpa [prodSteps] using hb2, by rw [prodSteps, hrem2, hrem]⟩
        · exact Or.inr (by simpa [prodSteps] using hcap2)
      · right
        rw [prodSteps, prodSteps_errCaptured depth n _ e hcap]
        exact hcap

/-- A pull on a wrapper holding a captured error re-raises it and makes
the wrapper terminal. -/
lemma consPull_errCaptured (depth : Nat) (s : PrefetchState α ε) (e : ε)
    (h : ErrCaptured e s) :
    ∃ s₂, consPull depth s = (PullResult.raised e, s₂) ∧ Terminal s₂ := by
  obtain ⟨h1, h2, h3, h4⟩ := h
  refine ⟨{ s with captured := none, exhausted := true }, ?_, rfl, h2⟩
  simp [consPull, h1, h3]

/-- A pull while the inner error is still ahead delivers the next
unobserved batch (positive depth); when nothing is left ahead of the
error, the pull raises it and the wrapper becomes terminal. -/
lemma consPull_errBound (depth : Nat) (hdep : 0 < depth)
    (s : PrefetchState α ε) (e : ε) (h : ErrBound e s) :
    (∀ b rest, remainingOf s = b :: rest →
      ∃ s₂, consPull depth s = (PullResult.batch b, s₂) ∧ ErrBound e s₂ ∧
        remainingOf s₂ = rest) ∧
    (remainingOf s = [] →
      ∃ s₂, consPull depth s = (PullResult.raised e, s₂) ∧ Terminal s₂) := by
  obtain ⟨h1, h2, h3, h4⟩ := h
  cases hq : s.queue with
  | cons b q =>
      constructor
      · intro b2 rest hrem
        rw [remainingOf, hq] at hrem
        obtain ⟨rfl, hrest⟩ := List.cons.injEq .. ▸ hrem
        refine ⟨{ s with queue := q }, ?_, ⟨h1, h2, h3, h4⟩, ?_⟩
        · simp [consPull, h2, h3, hq]
        · simpa [remainingOf] using hrest.symm ▸ rfl
      · intro hrem
        rw [remainingOf, hq] at hrem
        simp at hrem
  | nil =>
      have hrem0 : remainingOf s = s.pending := by simp [remainingOf, hq]
      have hlen : s.queue.length < depth := by simp [hq, hdep]
      cases hp : s.pending with
      | cons b rest =>
          constructor
          · intro b2 rest2 hrem
            rw [hrem0, hp] at hrem
            obtain ⟨rfl, hrest⟩ := List.cons.injEq .. ▸ hrem
            refine ⟨{ s with pending := rest, queue := [] }, ?_, ⟨h1, h2, h3, h4⟩, ?_⟩
            · simp [consPull, h2, h3, hq, prodStep, h4, hlen, hdep, hp]
            · simp [remainingOf, ← hrest]
          · intro hrem
            rw [hrem0, hp] at hrem
            cases hrem
      | nil =>
          constructor
          · intro b rest hrem
            rw [hrem0, hp] at hrem
            cases hrem
          · intro _
            refine ⟨{ s with innerDone := true, captured := none, exhausted := true },
              ?_, rfl, rfl⟩
            simp [consPull, h2, h3, hq, prodStep, h4, hlen, hdep, hp, h1]

/-- While the inner error is still ahead with v unobserved batches, a
full drain observes some prefix of v as batches, then the raised error
exactly once, then only end of data — whatever the schedule. -/
lemma pullTrace_errBound (depth : Nat) (hdep : 0 < depth) :
    ∀ (v : List α) (s : PrefetchState α ε) (e : ε) (m : Nat) (sched : List Nat),
      ErrBound e s → remainingOf s = v →
      ∃ k, k ≤ v.length ∧
        pullTrace depth (v.length + m + 1) sched s =
          (v.take k).map PullResult.batch ++ PullResult.raised e ::
            List.replicate (v.length - k + m) PullResult.endOfData := by
  intro v
  induction v with
  | nil =>
      intro s e m sched hb hr
      refine ⟨0, Nat.le_refl 0, ?_⟩
      have hn : ([] : List α).length + m + 1 = m + 1 := by simp
      rw [hn]
      rcases prodSteps_errBound depth (sched.headD 0) s e hb with ⟨hb1, hr1⟩ | hcap
      · obtain ⟨s₂, hpull, hterm⟩ := (consPull_errBound depth hdep _ e hb1).2 (by rw [hr1, hr])
        simp only [pullTrace]
        rw [hpull]
        simp [pullTrace_terminal depth m sched.tail s₂ hterm]
      · obtain ⟨s₂, hpull, hterm⟩ := consPull_errCaptured depth _ e hcap
        simp only [pullTrace]
        rw [hpull]
        simp [pullTrace_terminal depth m sched.tail s₂ hterm]
  | cons b rest ih =>
      intro s e m sched hb hr
      have hn : (b :: rest).length + m + 1 = (rest.length + m + 1) + 1 := by
        simp only [List.length_cons]
        omega
      rw [hn]
      rcases prodSteps_errBound depth (sched.headD 0) s e hb with ⟨hb1, hr1⟩ | hcap
      · obtain ⟨s₂, hpull, hb2, hr2⟩ :=
          (consPull_errBound depth hdep _ e hb1).1 b rest (by rw [hr1, hr])
        obtain ⟨k, hk, htr⟩ := ih s₂ e m sched.tail hb2 hr2
        refine ⟨k + 1, by simpa using Nat.succ_le_succ hk, ?_⟩
        rw [pullTrace_succ, hpull]
        simp [htr, Nat.succ_sub_succ]
      · obtain ⟨s₂, hpull, hterm⟩ := consPull_errCaptured depth _ e hcap
        refine ⟨0, Nat.zero_le _, ?_⟩
        rw [pullTrace_succ, hpull]
        have hcount : (b :: rest).length - 0 + m = rest.length + m + 1 := by
          simp only [List.length_cons, Nat.sub_zero]
          omega
        rw [hcount]
        simp [pullTrace_terminal depth (rest.length + m + 1) sched.tail s₂ hterm]

/-- C6: when the inner iterator raises an error after its batches, the
wrapper re-raises that error to the consumer exactly once — after some
prefix of the inner batches, on a single pull — and every later pull
reports end of data: the wrapper is terminally exhausted and the error
is never surfaced a second time, whatever the schedule of background
steps. -/
theorem c6_error_raised_once {α ε : Type} (depth : Nat) (hdep : 0 < depth)
    (inner : List α) (e : ε) (m : Nat) (sched : List Nat) :
    ∃ k, k ≤ inner.length ∧
      pullTrace depth (inner.length + m + 1) sched
          (PrefetchState.init inner (some e)) =
        (inner.take k).map PullResult.batch ++ PullResult.raised e ::
          List.replicate (inner.length - k + m) PullResult.endOfData :=
  pullTrace_errBound depth hdep inner _ e m sched ⟨rfl, rfl, rfl, rfl⟩
    (by simp [remainingOf, PrefetchState.init])

/-- Witness for C6: depth 1, two inner batches then an error. -/
theorem c6_error_raised_once_witness :
    ∃ k, k ≤ ([10, 20] : List Nat).length ∧
      pullTrace 1 (([10, 20] : List Nat).length + 1 + 1) [9, 9, 9]
          (PrefetchState.init [10, 20] (some 7)) =
        (([10, 20] : List Nat).take k).map PullResult.batch ++ PullResult.raised 7 ::
          List.replicate (([10, 20] : List Nat).length - k + 1) PullResult.endOfData :=
  @c6_error_raised_once Nat Nat 1 (by decide) [10, 20] 7 1 [9, 9, 9]

end MxnetIO
